import Mathlib

/-!
Verification development for the Nets repository's DNS code.

Shallow embedding of two source files:
* `src/hw2_dns_server/hw2_dns_server.py` — the iterative DNS server
  (`DNSServer`): request handling, iterative resolution, the delegation
  navigator `_find_next_server_name`, the wire codec helpers and the
  synthetic multiply handler.
* `src/hw2_dns_server.py` — the recursive/forwarding resolver
  (`DNSResolver`, `DNSCache`): `send_query`, `parse_response`, `resolve`,
  `handle_multiply`, and the TTL cache `add_value`/`get_value`.

Modelling conventions:
* Python byte strings are `List Nat` (each entry a byte value).
* Python exceptions are the `PyErr` error of an `Except PyErr _` result;
  code with no handler propagates the error, a `try/except` maps it back.
* The network is an explicit environment: the iterative engine receives a
  list of per-hop `recv` results (`.ok bytes` is a reply, `.error .timeout`
  is `socket.timeout`, an exhausted list means the server never answers);
  the recursive resolver's single upstream exchange is one such result.
* `time.time()` is an explicit `Int`-valued instant passed to the cache.
* Strings handled by the recursive resolver stay `String`; the codecs of
  the iterative server work on bytes, with ASCII text via `strBytes`.
-/

namespace Nets

/-- Python exceptions raised by the translated code. `compressionLoop` only
occurs in the claim-model pointer decoder (the source has no such failure). -/
inductive PyErr
  | indexError
  | structError
  | timeout
  | valueError
  | compressionLoop
deriving DecidableEq

/-- `struct.pack` of one unsigned big-endian 16-bit value (two bytes). -/
def packH (n : Nat) : List Nat := [n / 256 % 256, n % 256]

/-- `struct.pack` of one unsigned big-endian 32-bit value (four bytes). -/
def packI (n : Nat) : List Nat :=
  [n / 16777216 % 256, n / 65536 % 256, n / 256 % 256, n % 256]

/-- `struct.pack('!6H', ...)`: six big-endian 16-bit values. -/
def pack6H (a b c d e f : Nat) : List Nat :=
  packH a ++ packH b ++ packH c ++ packH d ++ packH e ++ packH f

/-- `struct.unpack('!H', data[i:i+2])`: big-endian 16-bit read;
`struct.error` when the slice is shorter than two bytes. -/
def unpackH (data : List Nat) (i : Nat) : Except PyErr Nat :=
  match data[i]?, data[i + 1]? with
  | some a, some b => .ok (a * 256 + b)
  | _, _ => .error .structError

/-- `struct.unpack('!I', data[i:i+4])`: big-endian 32-bit read. -/
def unpackI (data : List Nat) (i : Nat) : Except PyErr Nat :=
  match data[i]?, data[i + 1]?, data[i + 2]?, data[i + 3]? with
  | some a, some b, some c, some d => .ok (((a * 256 + b) * 256 + c) * 256 + d)
  | _, _, _, _ => .error .structError

/-- The six words of `struct.unpack('!6H', data[:12])` in wire order:
transaction id, flags, qdcount, ancount, nscount, arcount. -/
structure DnsHdr where
  id : Nat
  flags : Nat
  qd : Nat
  an : Nat
  ns : Nat
  ar : Nat
deriving DecidableEq

/-- `struct.unpack('!6H', data[:12])`; `struct.error` iff fewer than 12 bytes. -/
def unpack6H (data : List Nat) : Except PyErr DnsHdr :=
  match unpackH data 0 with
  | .error e => .error e
  | .ok a =>
    match unpackH data 2 with
    | .error e => .error e
    | .ok b =>
      match unpackH data 4 with
      | .error e => .error e
      | .ok c =>
        match unpackH data 6 with
        | .error e => .error e
        | .ok d =>
          match unpackH data 8 with
          | .error e => .error e
          | .ok e2 =>
            match unpackH data 10 with
            | .error e => .error e
            | .ok f => .ok ⟨a, b, c, d, e2, f⟩

/-- Python `domain.split('.')` at byte level (46 is the dot). -/
def splitOnDot : List Nat → List (List Nat)
  | [] => [[]]
  | c :: rest =>
    if c = 46 then [] :: splitOnDot rest
    else
      match splitOnDot rest with
      | [] => [[c]]
      | p :: ps => (c :: p) :: ps

/-- Python `'.'.join(parts)` at byte level. -/
def joinDots : List (List Nat) → List Nat
  | [] => []
  | [p] => p
  | p :: q :: rest => p ++ 46 :: joinDots (q :: rest)

/-- The label body of `_encode_domain_question`: each part as a
length-prefixed label (`struct.pack('B', len(part)) + part`). -/
def joinParts (parts : List (List Nat)) : List Nat :=
  (parts.map (fun p => p.length :: p)).flatten

/-- `DNSServer._encode_domain_question`: length-prefixed labels of the
dot-split domain, terminated by a zero byte. -/
def encodeDomainQuestion (domain : List Nat) : List Nat :=
  joinParts (splitOnDot domain) ++ [0]

/-- The label-reading loop of `DNSServer._decode_domain_name` with an
explicit recursion bound: read a length byte, slice that many bytes as a
label, stop at a zero length byte or at the end of the buffer (Python
slices never fault here). Every step consumes at least the length byte, so
any bound of at least the buffer length makes the bound irrelevant. -/
def decodeLabelsF : Nat → List Nat → List (List Nat)
  | 0, _ => []
  | _, [] => []
  | fuel + 1, l :: rest =>
    if l = 0 then [] else rest.take l :: decodeLabelsF fuel (rest.drop l)

/-- The label-reading loop of `DNSServer._decode_domain_name`. -/
def decodeLabels (data : List Nat) : List (List Nat) := decodeLabelsF data.length data

/-- `DNSServer._decode_domain_name` at byte level: labels joined with dots. -/
def decodeDomainNameBytes (data : List Nat) : List Nat :=
  joinDots (decodeLabels data)

/-- Helper for Python's substring test: does the list start with `needle`. -/
def startsWithSeq : List Nat → List Nat → Bool
  | [], _ => true
  | _ :: _, [] => false
  | a :: n1, b :: n2 => a == b && startsWithSeq n1 n2

/-- Python `needle in haystack` (substring containment) at byte level. -/
def containsSeq (needle : List Nat) : List Nat → Bool
  | [] => startsWithSeq needle []
  | b :: rest => startsWithSeq needle (b :: rest) || containsSeq needle rest

/-- ASCII bytes of a string literal. -/
def strBytes (s : String) : List Nat := s.toList.map Char.toNat

/-- Walk of the suffix `data[offset:]` for the scan
`while data[offset] != 0: offset += 1`: the returned number is the absolute
position of the first zero byte; an exhausted suffix is the loop indexing
past the end, an `IndexError`. -/
def findZeroAux : List Nat → Nat → Except PyErr Nat
  | [], _ => .error .indexError
  | b :: rest, offset => if b = 0 then .ok offset else findZeroAux rest (offset + 1)

/-- The scan `while data[offset] != 0: offset += 1`: position of the first
zero byte at or after `offset`; `IndexError` when the scan runs off the end. -/
def findZero (data : List Nat) (offset : Nat) : Except PyErr Nat :=
  findZeroAux (data.drop offset) offset

/-- Python `data[offset:offset+2]`. -/
def slice2 (data : List Nat) (offset : Nat) : List Nat := (data.drop offset).take 2

/-- Record-name handling inside `_find_next_server_name`: the exact bytes
`C0 0C` are skipped as a two-byte pointer (never dereferenced); any other
name is scanned byte by byte to its zero terminator. Returns the offset just
past the name. -/
def skipName (data : List Nat) (offset : Nat) : Except PyErr Nat :=
  if slice2 data offset = [192, 12] then .ok (offset + 2)
  else
    match findZero data offset with
    | .error e => .error e
    | .ok z => .ok (z + 1)

/-- `'.'.join(map(str, bytes))`: dotted-decimal rendering. -/
def dotted (bs : List Nat) : String := String.intercalate "." (bs.map (fun b => Nat.repr b))

/-- `socket.inet_ntoa(data[offset:offset+4])`: dotted decimal of a four-byte
slice; raises when fewer than four bytes remain. -/
def inetNtoa4 (data : List Nat) (offset : Nat) : Except PyErr String :=
  let s := (data.drop offset).take 4
  if s.length = 4 then .ok (dotted s) else .error .valueError

/-- The `for _ in range(additional_count)` loop of `_find_next_server_name`:
skip the name, read the type, skip eight bytes (type+class+TTL), read the
data length, and on type A return the four data bytes dotted; otherwise skip
the data and continue. -/
def scanRecordsLoop (data : List Nat) : Nat → Nat → Except PyErr (Option String)
  | _, 0 => .ok none
  | offset, count + 1 =>
    match skipName data offset with
    | .error e => .error e
    | .ok o1 =>
      match unpackH data o1 with
      | .error e => .error e
      | .ok rtype =>
        match unpackH data (o1 + 8) with
        | .error e => .error e
        | .ok dl =>
          if rtype = 1 then
            match inetNtoa4 data (o1 + 10) with
            | .error e => .error e
            | .ok ip => .ok (some ip)
          else scanRecordsLoop data (o1 + 10 + dl) count

/-- The `for _ in range(questions)` loop of `_find_next_server_name`:
scan each question to its zero byte, then jump five bytes past it. -/
def skipQuestionsLoop (data : List Nat) : Nat → Nat → Except PyErr Nat
  | offset, 0 => .ok offset
  | offset, count + 1 =>
    match findZero data offset with
    | .error e => .error e
    | .ok z => skipQuestionsLoop data (z + 5) count

/-- `DNSServer._find_next_server_name`: read qdcount from bytes 4..5, skip
that many questions starting at offset 12, read arcount from bytes 10..11,
then scan that many records for the first type-A record. -/
def findNextServerName (data : List Nat) : Except PyErr (Option String) :=
  match unpackH data 4 with
  | .error e => .error e
  | .ok questions =>
    match skipQuestionsLoop data 12 questions with
    | .error e => .error e
    | .ok o1 =>
      match unpackH data 10 with
      | .error e => .error e
      | .ok arcount => scanRecordsLoop data o1 arcount

/-- `DNSServer._iterative_resolve`. The environment list holds one `recv`
outcome per hop; the code checks `header[3]` (ancount) for an answer and
`header[4]` — which is nscount, the authority count — before consulting the
navigator. A `socket.timeout` from `recv` has no handler and propagates. -/
def iterativeResolve :
    List (Except PyErr (List Nat)) → List Nat → String → Except PyErr (Option (List Nat))
  | [], _, _ => .error .timeout
  | .error e :: _, _, _ => .error e
  | .ok resp :: env, query, _server =>
    match unpack6H resp with
    | .error e => .error e
    | .ok hdr =>
      if hdr.an > 0 then .ok (some resp)
      else if hdr.ns > 0 then
        match findNextServerName resp with
        | .error e => .error e
        | .ok (some next) => iterativeResolve env query next
        | .ok none => .ok none
      else .ok none

/-- Python `part.isdigit()` for an ASCII byte label. -/
def pyIsDigitBytes (p : List Nat) : Bool :=
  !p.isEmpty && p.all (fun b => 48 ≤ b && b ≤ 57)

/-- Python `int(part)` for a digit label. -/
def digitsToNat (p : List Nat) : Nat := p.foldl (fun a b => a * 10 + (b - 48)) 0

/-- `math.prod`. -/
def listProd (l : List Nat) : Nat := l.foldl (· * ·) 1

/-- `DNSServer._create_dns_response`: header with flags 0x8180 and one
answer, the question, and one A answer with TTL 60; the IP is supplied as
its four `inet_aton` bytes. -/
def createDnsResponse (id : Nat) (domain : List Nat) (ip : List Nat) : List Nat :=
  pack6H id 0x8180 1 1 0 0
    ++ (encodeDomainQuestion domain ++ packH 1 ++ packH 1)
    ++ (encodeDomainQuestion domain ++ packH 1 ++ packH 1 ++ packI 60 ++ packH 4 ++ ip)

/-- `DNSServer._create_error_response`: header with flags 0x8183 (RCODE 3,
name error), zero answers, and the fixed placeholder question `error.local`. -/
def createErrorResponse (id : Nat) : List Nat :=
  pack6H id 0x8183 1 0 0 0 ++ encodeDomainQuestion (strBytes "error.local") ++ packH 1 ++ packH 1

/-- `DNSServer._process_multiply_query`: product of the numeric labels
mod 256 as the last octet of 127.0.0.x. -/
def processMultiplyQuery (domain : List Nat) (id : Nat) : List Nat :=
  let parts := splitOnDot domain
  let numbers := (parts.filter pyIsDigitBytes).map digitsToNat
  createDnsResponse id domain [127, 0, 0, listProd numbers % 256]

/-- `DNSServer.root_server`. -/
def rootServer : String := "198.41.0.4"

/-- `DNSServer._handle_request`: decode the header and the domain of the
question, dispatch to the multiply handler on a plain substring hit,
otherwise run iterative resolution from the root and fall back to the
synthesized error response when it returns no result. Exceptions raised
below (header unpack, navigator faults, socket timeout) have no handler. -/
def handleRequest (data : List Nat) (env : List (Except PyErr (List Nat))) :
    Except PyErr (List Nat) :=
  match unpack6H data with
  | .error e => .error e
  | .ok hdr =>
    let domain := decodeDomainNameBytes (data.drop 12)
    if containsSeq (strBytes "multiply") domain then .ok (processMultiplyQuery domain hdr.id)
    else
      match iterativeResolve env data rootServer with
      | .error e => .error e
      | .ok (some resp) => .ok resp
      | .ok none => .ok (createErrorResponse hdr.id)

/-- A well-formed query as built by clients: header with qdcount 1, the
encoded question, type and class. Used to feed `handleRequest`. -/
def queryFor (dom : String) (id : Nat) : List Nat :=
  pack6H id 0x0100 1 0 0 0 ++ encodeDomainQuestion (strBytes dom) ++ packH 1 ++ packH 1

/-! ### Recursive resolver (`src/hw2_dns_server.py`) -/

/-- Python `needle in haystack` on strings (ASCII). -/
def pyContains (haystack needle : String) : Bool :=
  containsSeq (strBytes needle) (strBytes haystack)

/-- Python `s.isdigit()` (ASCII). -/
def pyIsDigitStr (s : String) : Bool := !s.isEmpty && s.toList.all Char.isDigit

/-- Python `int(s)` for a digit string. -/
def strToNat (s : String) : Nat := s.toList.foldl (fun a c => a * 10 + (c.toNat - 48)) 0

/-- Python `domain.split('.')` on a character list (the single-character
separator case of `str.split`). -/
def splitOnDotChars : List Char → List (List Char)
  | [] => [[]]
  | c :: rest =>
    if c = '.' then [] :: splitOnDotChars rest
    else
      match splitOnDotChars rest with
      | [] => [[c]]
      | p :: ps => (c :: p) :: ps

/-- Python `domain.split('.')` producing strings. -/
def pySplitDots (domain : String) : List String :=
  (splitOnDotChars domain.toList).map (fun l => String.mk l)

/-- `DNSResolver.handle_multiply`: fold the numeric labels with
`result = (result * num) % 256` starting from 1 (the `except ValueError`
branch is unreachable because `isdigit` filtered the parts). -/
def handleMultiply (domain : String) : String :=
  let parts := pySplitDots domain
  let nums := (parts.filter pyIsDigitStr).map strToNat
  let result := nums.foldl (fun r n => r * n % 256) 1
  "127.0.0." ++ Nat.repr result

/-- The resolver cache dictionary: domain, then (address list, expiry instant). -/
abbrev CacheT := List (String × (List String × Int))

/-- Python dict lookup. -/
def dictLookup : CacheT → String → Option (List String × Int)
  | [], _ => none
  | (k, v) :: rest, key => if k = key then some v else dictLookup rest key

/-- Python dict assignment: overwrite in place or append. -/
def dictInsert : CacheT → String → (List String × Int) → CacheT
  | [], key, val => [(key, val)]
  | (k, v) :: rest, key, val =>
    if k = key then (key, val) :: rest else (k, v) :: dictInsert rest key val

/-- Python `del dict[key]`. -/
def dictDelete : CacheT → String → CacheT
  | [], _ => []
  | (k, v) :: rest, key => if k = key then rest else (k, v) :: dictDelete rest key

/-- `DNSCache.add_value`: expiry is `time.time() + ttl`; overwrites any
previous entry (`_save_cache` is external persistence, out of scope). -/
def addValue (c : CacheT) (domain : String) (ips : List String) (now ttl : Int) : CacheT :=
  dictInsert c domain (ips, now + ttl)

/-- `DNSCache.get_value`: return the stored list when `now < expiry`,
otherwise delete the entry and miss. -/
def getValue (c : CacheT) (domain : String) (now : Int) : Option (List String) × CacheT :=
  match dictLookup c domain with
  | some (ips, expire) => if now < expire then (some ips, c) else (none, dictDelete c domain)
  | none => (none, c)

/-- `DNSResolver.send_query`: one UDP exchange with the upstream; a
`socket.timeout` is caught and becomes `None`, anything else propagates. -/
def sendQuery (net : Except PyErr (List Nat)) : Except PyErr (Option (List Nat)) :=
  match net with
  | .ok r => .ok (some r)
  | .error .timeout => .ok none
  | .error e => .error e

/-- Walk of the suffix `resp[offset:]` for the bounded scan of
`parse_response`: stops at the first zero byte or at the end, no fault. -/
def scanZeroAux : List Nat → Nat → Nat
  | [], offset => offset
  | b :: rest, offset => if b = 0 then offset else scanZeroAux rest (offset + 1)

/-- The bounded scan `while offset < len(response) and response[offset] != 0`
of `parse_response`. -/
def scanZeroBounded (resp : List Nat) (offset : Nat) : Nat :=
  scanZeroAux (resp.drop offset) offset

/-- The question-skipping loop of `parse_response`. -/
def skipQuestionsBounded (resp : List Nat) : Nat → Nat → Nat
  | offset, 0 => offset
  | offset, q + 1 => skipQuestionsBounded resp (scanZeroBounded resp offset + 5) q

/-- The answer loop of `parse_response`: bail out when fewer than ten bytes
remain for the fixed fields, skip the two-byte name reference, read
type/class/TTL/rdlength (the rdlength read can still overrun and raise
`struct.error`), bail out when the rdata overruns, and collect dotted
addresses of A records whose rdlength is four. -/
def answersLoop (resp : List Nat) : Nat → Nat → Except PyErr (List String)
  | _, 0 => .ok []
  | offset, n + 1 =>
    if offset + 10 > resp.length then .ok []
    else
      match unpackH resp (offset + 2), unpackH resp (offset + 4),
          unpackI resp (offset + 6), unpackH resp (offset + 10) with
      | .ok rtype, .ok _rclass, .ok _ttl, .ok rdlength =>
        if offset + 12 + rdlength > resp.length then .ok []
        else
          match answersLoop resp (offset + 12 + rdlength) n with
          | .error e => .error e
          | .ok rest =>
            if rtype = 1 && rdlength = 4 then
              .ok (dotted ((resp.drop (offset + 12)).take 4) :: rest)
            else .ok rest
      | _, _, _, _ => .error .structError

/-- `DNSResolver.parse_response`: `None` for a missing or short reply,
otherwise skip the questions and collect the A addresses of the answer
section; an empty collection is reported as `None`. -/
def parseResponse (response : Option (List Nat)) : Except PyErr (Option (List String)) :=
  match response with
  | none => .ok none
  | some resp =>
    if resp.length < 12 then .ok none
    else
      match unpackH resp 4, unpackH resp 6 with
      | .ok qd, .ok an =>
        match answersLoop resp (skipQuestionsBounded resp 12 qd) an with
        | .error e => .error e
        | .ok ips => .ok (if ips.isEmpty then none else some ips)
      | _, _ => .error .structError

/-- `DNSResolver.resolve`: the `".multiply."` substring shortcut first, then
the cache (a truthy hit returns the stored non-empty list), then one
upstream exchange; a non-empty parsed answer list is cached with the fixed
TTL 300 before being returned. -/
def resolve (domain : String) (cache : CacheT) (net : Except PyErr (List Nat)) (now : Int) :
    Except PyErr (Option (List String) × CacheT) :=
  if pyContains domain ".multiply." then .ok (some [handleMultiply domain], cache)
  else
    match getValue cache domain now with
    | (some (ip :: ips), c1) => .ok (some (ip :: ips), c1)
    | (_, c1) =>
      match sendQuery net with
      | .error e => .error e
      | .ok response =>
        match parseResponse response with
        | .error e => .error e
        | .ok (some ips) => .ok (some ips, addValue c1 domain ips now 300)
        | .ok none => .ok (none, c1)

/-! ### Claim models

Definitions below follow the words of the spec/claims, not the source; each
exists only to be compared against the source embedding above. -/

/-- Modelled from the claim wording of C1: identical to `iterativeResolve`
except that, with no answer present, the engine consults the Navigator when
the additional-record count `arcount` is positive (the source tests the
authority count `nscount`). -/
def iterativeResolveClaim :
    List (Except PyErr (List Nat)) → List Nat → String → Except PyErr (Option (List Nat))
  | [], _, _ => .error .timeout
  | .error e :: _, _, _ => .error e
  | .ok resp :: env, query, _server =>
    match unpack6H resp with
    | .error e => .error e
    | .ok hdr =>
      if hdr.an > 0 then .ok (some resp)
      else if hdr.ar > 0 then
        match findNextServerName resp with
        | .error e => .error e
        | .ok (some next) => iterativeResolveClaim env query next
        | .ok none => .ok none
      else .ok none

/-- Modelled from the claim wording of C2/C6: skip a record name, treating
any length byte with the top two bits set (value at least 0xC0) as a
two-byte compression pointer and otherwise stepping over whole
length-prefixed labels up to the zero terminator. The recursion bound is
immaterial whenever it exceeds the buffer length, since every label step
strictly advances the offset. -/
def skipNameClaimF (data : List Nat) : Nat → Nat → Except PyErr Nat
  | 0, _ => .error .indexError
  | fuel + 1, offset =>
    match data[offset]? with
    | none => .error .indexError
    | some b =>
      if 192 ≤ b then .ok (offset + 2)
      else if b = 0 then .ok (offset + 1)
      else skipNameClaimF data fuel (offset + b + 1)

/-- Modelled from the claim wording of C2/C6: name skip with the bound set
beyond the buffer length. -/
def skipNameClaim (data : List Nat) (offset : Nat) : Except PyErr Nat :=
  skipNameClaimF data (data.length + 1) offset

/-- Modelled from the claim wording of C2: skip `count` question entries,
each a name followed by four bytes of type and class. -/
def skipQuestionsClaim (data : List Nat) : Nat → Nat → Except PyErr Nat
  | offset, 0 => .ok offset
  | offset, count + 1 =>
    match skipNameClaim data offset with
    | .error e => .error e
    | .ok o => skipQuestionsClaim data (o + 4) count

/-- Modelled from the claim wording of C2: skip `count` complete resource
records (name, ten fixed bytes, then the declared data length). -/
def skipRecordsClaim (data : List Nat) : Nat → Nat → Except PyErr Nat
  | offset, 0 => .ok offset
  | offset, count + 1 =>
    match skipNameClaim data offset with
    | .error e => .error e
    | .ok o =>
      match unpackH data (o + 8) with
      | .error e => .error e
      | .ok dl => skipRecordsClaim data (o + 10 + dl) count

/-- Modelled from the claim wording of C2: scan `count` records for the
first record of type A and return its four-byte address dotted. -/
def scanAdditionalClaim (data : List Nat) : Nat → Nat → Except PyErr (Option String)
  | _, 0 => .ok none
  | offset, count + 1 =>
    match skipNameClaim data offset with
    | .error e => .error e
    | .ok o =>
      match unpackH data o, unpackH data (o + 8) with
      | .ok rtype, .ok dl =>
        if rtype = 1 then
          match inetNtoa4 data (o + 10) with
          | .error e => .error e
          | .ok ip => .ok (some ip)
        else scanAdditionalClaim data (o + 10 + dl) count
      | _, _ => .error .structError

/-- Modelled from the claim wording of C2: the Navigator as the claim
states it — skip exactly qdcount question entries, then skip the answer and
authority records to reach the additional section, and scan exactly the
arcount additional records for the first type-A hit. -/
def findNextClaimSpec (data : List Nat) : Except PyErr (Option String) :=
  match unpack6H data with
  | .error e => .error e
  | .ok hdr =>
    match skipQuestionsClaim data 12 hdr.qd with
    | .error e => .error e
    | .ok o1 =>
      match skipRecordsClaim data o1 (hdr.an + hdr.ns) with
      | .error e => .error e
      | .ok o2 => scanAdditionalClaim data o2 hdr.ar

/-- Modelled from the claim wording of C6: a name decoder that follows
compression pointers (length byte at least 0xC0, lower 14 bits the target
offset) and fails with `compressionLoop` when a pointer chain revisits an
already-visited offset. The fuel argument only bounds the recursion; with
fuel above `data.length + 1` it is never the reason for a failure on a
revisiting chain. -/
def decodeNamePtrs (data : List Nat) : List Nat → Nat → Nat → Except PyErr (List (List Nat))
  | _, _, 0 => .error .compressionLoop
  | visited, offset, fuel + 1 =>
    if offset ∈ visited then .error .compressionLoop
    else
      match data[offset]? with
      | none => .error .indexError
      | some b =>
        if 192 ≤ b then
          match data[offset + 1]? with
          | none => .error .indexError
          | some b2 => decodeNamePtrs data (offset :: visited) ((b - 192) * 256 + b2) fuel
        else if b = 0 then .ok []
        else
          match decodeNamePtrs data visited (offset + b + 1) fuel with
          | .error e => .error e
          | .ok rest => .ok ((data.drop (offset + 1)).take b :: rest)

/-! ### Buffer schemata

Structured buffers used to state what the Navigator computes on inputs
whose record layout is known. -/

/-- A resource record as laid out on the wire: a name, a 16-bit type, six
bytes of class and TTL, then the length-prefixed data. -/
structure RawRR where
  name : List Nat
  rtype : Nat
  meta : List Nat
  rdata : List Nat

/-- Wire bytes of one record. -/
def rrBytes (r : RawRR) : List Nat :=
  r.name ++ packH r.rtype ++ r.meta ++ packH r.rdata.length ++ r.rdata

/-- Wire bytes of a record sequence. -/
def rrsBytes (rs : List RawRR) : List Nat := (rs.map rrBytes).flatten

/-- Wire bytes of one question entry: encoded domain, type, class. -/
def questionBytes (q : List Nat × Nat × Nat) : List Nat :=
  encodeDomainQuestion q.1 ++ packH q.2.1 ++ packH q.2.2

/-- Wire bytes of a question sequence. -/
def questionsBytes (qs : List (List Nat × Nat × Nat)) : List Nat :=
  (qs.map questionBytes).flatten

/-- A record name the source scan steps over exactly: either the literal
pointer bytes `C0 0C`, or a zero-terminated literal name with no interior
zero byte that does not begin with the pointer bytes. -/
def wellNamed (n : List Nat) : Prop :=
  n = [192, 12] ∨ ∃ lbls, n = lbls ++ [0] ∧ 0 ∉ lbls ∧ lbls.take 2 ≠ [192, 12]

/-- A record whose on-wire field widths match what the scan assumes. -/
def wellFormedRR (r : RawRR) : Prop :=
  wellNamed r.name ∧ r.meta.length = 6 ∧ r.rtype < 65536 ∧ r.rdata.length < 65536 ∧
    (r.rtype = 1 → r.rdata.length = 4)

/-- A domain whose encoded question has its only zero byte at the very end:
no zero byte in the text and no empty label. -/
def goodDomain (d : List Nat) : Prop :=
  0 ∉ d ∧ ∀ p ∈ splitOnDot d, p ≠ []

/-- First type-A hit of a record list, rendered dotted — the result the
Navigator's scan is specified to produce on the records it walks. -/
def specScan : List RawRR → Option String
  | [] => none
  | r :: rs => if r.rtype = 1 then some (dotted r.rdata) else specScan rs

/-- RCODE of a wire response: the low four bits of the flags' low byte. -/
def rcodeOf (resp : List Nat) : Option Nat := resp[3]?.map (· % 16)

/-- Referral reply used by C1: qdcount 1, ancount 0, nscount 0, arcount 1,
one question for the name `a`, one additional A record carrying 9.9.9.9. -/
def c1ReferralBuf : List Nat :=
  [0, 0, 0, 0, 0, 1, 0, 0, 0, 0, 0, 1]
    ++ [1, 97, 0, 0, 1, 0, 1]
    ++ [192, 12, 0, 1, 0, 1, 0, 0, 0, 0, 0, 4, 9, 9, 9, 9]

/-- Answer reply used by C1: ancount 1, every other count 0. -/
def c1AnswerBuf : List Nat := [0, 0, 0, 0, 0, 0, 0, 1, 0, 0, 0, 0]

/-- Referral reply used by C2: qdcount 1, ancount 0, nscount 1, arcount 1,
one question for `a`, one NS authority record, then one additional A record
carrying 5.6.7.8. -/
def c2SectionBuf : List Nat :=
  [0, 0, 0, 0, 0, 1, 0, 0, 0, 1, 0, 1]
    ++ [1, 97, 0, 0, 1, 0, 1]
    ++ [192, 12, 0, 2, 0, 1, 0, 0, 0, 0, 0, 2, 192, 12]
    ++ [192, 12, 0, 1, 0, 1, 0, 0, 0, 0, 0, 4, 5, 6, 7, 8]

/-- Crafted reply used by C6: qdcount 0, arcount 1; the single record's name
is the pointer bytes `C0 0C` at offset 12, i.e. a pointer chain that
revisits offset 12 immediately; the record is type A carrying 9.9.9.9. -/
def c6LoopBuf : List Nat :=
  [0, 0, 0, 0, 0, 0, 0, 0, 0, 0, 0, 1]
    ++ [192, 12, 0, 1, 0, 1, 0, 0, 0, 0, 0, 4, 9, 9, 9, 9]

/-- Truncated reply used by C3: a bare 12-byte header declaring qdcount 1,
nscount 1 and arcount 1 with no question or record bytes behind it. -/
def c3TruncBuf : List Nat := [0, 0, 0, 0, 0, 1, 0, 0, 0, 1, 0, 1]

/-- Referral reply whose iterative step returns no result (ancount 0 and
nscount 0): a 12-byte all-zero header. Used by the C4 witness. -/
def c4NoRefBuf : List Nat := [0, 0, 0, 0, 0, 0, 0, 0, 0, 0, 0, 0]

/-! ### Supporting lemmas -/

lemma splitOnDot_ne_nil (d : List Nat) : splitOnDot d ≠ [] := by
  cases d with
  | nil => simp [splitOnDot]
  | cons c rest =>
    simp only [splitOnDot]
    split
    · simp
    · split <;> simp

lemma joinDots_splitOnDot (d : List Nat) : joinDots (splitOnDot d) = d := by
  induction d with
  | nil => simp [splitOnDot, joinDots]
  | cons c rest ih =>
    by_cases hc : c = 46
    · subst hc
      rw [splitOnDot, if_pos rfl]
      rcases hsp : splitOnDot rest with _ | ⟨p, ps⟩
      · exact absurd hsp (splitOnDot_ne_nil rest)
      · rw [hsp] at ih
        rw [joinDots]
        simpa using ih
    · rw [splitOnDot, if_neg hc]
      rcases hsp : splitOnDot rest with _ | ⟨p, ps⟩
      · exact absurd hsp (splitOnDot_ne_nil rest)
      · rw [hsp] at ih
        cases ps with
        | nil =>
          rw [joinDots] at ih ⊢
          simp [ih]
        | cons q t =>
          rw [joinDots] at ih ⊢
          simp [← ih]

lemma decodeLabelsF_fuelInv :
    ∀ (f1 f2 : Nat) (data : List Nat), data.length ≤ f1 → data.length ≤ f2 →
      decodeLabelsF f1 data = decodeLabelsF f2 data := by
  intro f1
  induction f1 with
  | zero =>
    intro f2 data h1 h2
    have hnil : data = [] := List.length_eq_zero.mp (by omega)
    subst hnil
    cases f2 <;> rfl
  | succ f1 ih =>
    intro f2 data h1 h2
    cases data with
    | nil => cases f2 <;> rfl
    | cons l rest =>
      cases f2 with
      | zero => simp at h2
      | succ f2 =>
        simp only [decodeLabelsF]
        by_cases hl : l = 0
        · rw [if_pos hl, if_pos hl]
        · rw [if_neg hl, if_neg hl]
          have hrec := ih f2 (rest.drop l)
            (by simp only [List.length_cons, List.length_drop] at h1 ⊢; omega)
            (by simp only [List.length_cons, List.length_drop] at h2 ⊢; omega)
          rw [hrec]

lemma decodeLabels_joinParts (parts : List (List Nat)) (h : ∀ p ∈ parts, p ≠ []) :
    decodeLabels (joinParts parts ++ [0]) = parts := by
  induction parts with
  | nil => simp [joinParts, decodeLabels, decodeLabelsF]
  | cons p ps ih =>
    have hp : p.length ≠ 0 := by
      simpa [List.length_eq_zero] using h p (List.mem_cons_self _ _)
    have hshape : joinParts (p :: ps) ++ [0] = p.length :: (p ++ (joinParts ps ++ [0])) := by
      simp [joinParts]
    unfold decodeLabels
    rw [hshape]
    have hlen : (p.length :: (p ++ (joinParts ps ++ [0]))).length
        = (p ++ (joinParts ps ++ [0])).length + 1 := by simp
    rw [hlen]
    simp only [decodeLabelsF]
    rw [if_neg hp, List.take_left, List.drop_left]
    have ihv := ih (fun q hq => h q (List.mem_cons_of_mem _ hq))
    unfold decodeLabels at ihv
    have hinv := decodeLabelsF_fuelInv (p ++ (joinParts ps ++ [0])).length
      (joinParts ps ++ [0]).length (joinParts ps ++ [0]) (by simp) (le_refl _)
    rw [hinv, ihv]

lemma dictLookup_insert (c : CacheT) (k : String) (v : List String × Int) :
    dictLookup (dictInsert c k v) k = some v := by
  induction c with
  | nil => simp [dictInsert, dictLookup]
  | cons kv rest ih =>
    obtain ⟨k1, v1⟩ := kv
    by_cases hk : k1 = k
    · subst hk
      simp [dictInsert, dictLookup]
    · simp [dictInsert, dictLookup, hk, ih]

lemma dictLookup_none_of_not_mem (c : CacheT) (k : String) (h : k ∉ c.map Prod.fst) :
    dictLookup c k = none := by
  induction c with
  | nil => simp [dictLookup]
  | cons kv rest ih =>
    obtain ⟨k1, v1⟩ := kv
    simp only [List.map_cons, List.mem_cons] at h
    push_neg at h
    have hne : ¬k1 = k := fun hh => h.1 hh.symm
    simp [dictLookup, hne, ih h.2]

lemma dictDelete_keys_nodup (c : CacheT) (k : String)
    (h : (c.map Prod.fst).Nodup) : dictLookup (dictDelete c k) k = none := by
  induction c with
  | nil => simp [dictDelete, dictLookup]
  | cons kv rest ih =>
    obtain ⟨k1, v1⟩ := kv
    simp only [List.map_cons, List.nodup_cons] at h
    by_cases hk : k1 = k
    · subst hk
      rw [dictDelete, if_pos rfl]
      exact dictLookup_none_of_not_mem rest k1 h.1
    · rw [dictDelete, if_neg hk, dictLookup, if_neg hk]
      exact ih h.2

lemma dictInsert_mem_keys (c : CacheT) (k : String) (v : List String × Int) (x : String)
    (hx : x ∈ (dictInsert c k v).map Prod.fst) : x ∈ c.map Prod.fst ∨ x = k := by
  induction c with
  | nil =>
    simp [dictInsert] at hx
    exact Or.inr hx
  | cons kv rest ih =>
    obtain ⟨k1, v1⟩ := kv
    by_cases hk : k1 = k
    · subst hk
      rw [dictInsert, if_pos rfl] at hx
      simp only [List.map_cons, List.mem_cons] at hx ⊢
      rcases hx with h1 | h2
      · exact Or.inr h1
      · exact Or.inl (Or.inr h2)
    · rw [dictInsert, if_neg hk] at hx
      simp only [List.map_cons, List.mem_cons] at hx ⊢
      rcases hx with h1 | h2
      · exact Or.inl (Or.inl h1)
      · rcases ih h2 with h3 | h4
        · exact Or.inl (Or.inr h3)
        · exact Or.inr h4

lemma dictInsert_nodup (c : CacheT) (k : String) (v : List String × Int)
    (h : (c.map Prod.fst).Nodup) : ((dictInsert c k v).map Prod.fst).Nodup := by
  induction c with
  | nil => simp [dictInsert]
  | cons kv rest ih =>
    obtain ⟨k1, v1⟩ := kv
    simp only [List.map_cons, List.nodup_cons] at h
    by_cases hk : k1 = k
    · subst hk
      rw [dictInsert, if_pos rfl]
      simp only [List.map_cons, List.nodup_cons]
      exact ⟨h.1, h.2⟩
    · rw [dictInsert, if_neg hk]
      simp only [List.map_cons, List.nodup_cons]
      refine ⟨fun hmem => ?_, ih h.2⟩
      rcases dictInsert_mem_keys rest k v k1 hmem with h1 | h2
      · exact h.1 h1
      · exact hk h2

lemma findZeroAux_ge (l : List Nat) : ∀ offset z, findZeroAux l offset = .ok z → offset ≤ z := by
  induction l with
  | nil =>
    intro offset z h
    exact absurd h (by simp [findZeroAux])
  | cons b rest ih =>
    intro offset z h
    rw [findZeroAux] at h
    by_cases hb : b = 0
    · rw [if_pos hb] at h
      cases h
      omega
    · rw [if_neg hb] at h
      have := ih (offset + 1) z h
      omega

lemma findZero_ge (data : List Nat) : ∀ offset z, findZero data offset = .ok z → offset ≤ z :=
  fun offset z h => findZeroAux_ge _ offset z h

lemma unpackH_ok_elim {data : List Nat} {i v : Nat} (h : unpackH data i = .ok v) :
    ∃ a b, data[i]? = some a ∧ data[i + 1]? = some b ∧ v = a * 256 + b := by
  unfold unpackH at h
  cases hg1 : data[i]? with
  | none =>
    rw [hg1] at h
    exact absurd h (by simp)
  | some a =>
    cases hg2 : data[i + 1]? with
    | none =>
      rw [hg1, hg2] at h
      exact absurd h (by simp)
    | some b =>
      rw [hg1, hg2] at h
      cases h
      exact ⟨a, b, rfl, rfl, rfl⟩

lemma unpack6H_id_bytes {data : List Nat} {hdr : DnsHdr} (h : unpack6H data = .ok hdr) :
    ∃ a b, data[0]? = some a ∧ data[1]? = some b ∧ hdr.id = a * 256 + b := by
  unfold unpack6H at h
  cases h0 : unpackH data 0 with
  | error e =>
    rw [h0] at h
    exact absurd h (by simp)
  | ok v0 =>
    rw [h0] at h
    obtain ⟨a, b, hga, hgb, hv⟩ := unpackH_ok_elim h0
    refine ⟨a, b, hga, hgb, ?_⟩
    cases h1 : unpackH data 2 <;> rw [h1] at h
    · exact absurd h (by simp)
    cases h2 : unpackH data 4 <;> rw [h2] at h
    · exact absurd h (by simp)
    cases h3 : unpackH data 6 <;> rw [h3] at h
    · exact absurd h (by simp)
    cases h4 : unpackH data 8 <;> rw [h4] at h
    · exact absurd h (by simp)
    cases h5 : unpackH data 10 <;> rw [h5] at h
    · exact absurd h (by simp)
    cases h
    exact hv

lemma take2_of_getElem {data : List Nat} {a b : Nat}
    (h0 : data[0]? = some a) (h1 : data[1]? = some b) : data.take 2 = [a, b] := by
  cases data with
  | nil => exact absurd h0 (by simp)
  | cons x rest =>
    cases rest with
    | nil => exact absurd h1 (by simp)
    | cons y t =>
      simp only [List.getElem?_cons_zero, Option.some.injEq] at h0
      have h1b : y = b := by
        simpa using h1
      rw [← h0, ← h1b]
      rfl

/-! ### Claim theorems -/

/-- Claim C7: for any valid domain name — labels non-empty (validity) and at
most 63 bytes, total encoded length at most 255 bytes — encoding the name
into length-prefixed labels terminated by a zero byte and decoding that byte
sequence yields the original name again. -/
theorem c7_roundtrip (d : List Nat)
    (h1 : ∀ p ∈ splitOnDot d, p ≠ [] ∧ p.length ≤ 63)
    (h2 : (encodeDomainQuestion d).length ≤ 255) :
    decodeDomainNameBytes (encodeDomainQuestion d) = d := by
  unfold decodeDomainNameBytes encodeDomainQuestion
  rw [decodeLabels_joinParts _ (fun p hp => (h1 p hp).1), joinDots_splitOnDot]

/-- Witness for C7 at the concrete name `abc.de`. -/
theorem c7_witness :
    (∀ p ∈ splitOnDot (strBytes "abc.de"), p ≠ [] ∧ p.length ≤ 63) ∧
    (encodeDomainQuestion (strBytes "abc.de")).length ≤ 255 ∧
    decodeDomainNameBytes (encodeDomainQuestion (strBytes "abc.de")) = strBytes "abc.de" :=
  ⟨by decide, by decide, c7_roundtrip _ (by decide) (by decide)⟩

/-- Claim C8: after `put(domain, addresses, ttl)` at instant `t0` the entry's
expiry is `t0 + ttl` and any previous entry for that domain is overwritten;
a later `get` at instant `t1` returns the stored list iff `t1 < t0 + ttl`,
and otherwise deletes the entry (gone from subsequent inspection) and
reports a miss. Stated for caches whose keys are distinct, the invariant a
Python dict maintains by construction. -/
theorem c8_cache (c : CacheT) (d : String) (ips : List String) (t0 ttl t1 : Int)
    (hnod : (c.map Prod.fst).Nodup) :
    dictLookup (addValue c d ips t0 ttl) d = some (ips, t0 + ttl) ∧
    (t1 < t0 + ttl → getValue (addValue c d ips t0 ttl) d t1 = (some ips, addValue c d ips t0 ttl)) ∧
    (t0 + ttl ≤ t1 →
      (getValue (addValue c d ips t0 ttl) d t1).1 = none ∧
      dictLookup (getValue (addValue c d ips t0 ttl) d t1).2 d = none) := by
  have hl : dictLookup (addValue c d ips t0 ttl) d = some (ips, t0 + ttl) :=
    dictLookup_insert c d (ips, t0 + ttl)
  refine ⟨hl, fun hlt => ?_, fun hge => ?_⟩
  · rw [getValue, hl]
    dsimp only
    rw [if_pos hlt]
  · rw [getValue, hl]
    dsimp only
    rw [if_neg (show ¬t1 < t0 + ttl by omega)]
    exact ⟨rfl, dictDelete_keys_nodup _ d (dictInsert_nodup c d _ hnod)⟩

/-- Witness for C8: fresh read then expired read on a concrete cache. -/
theorem c8_witness :
    getValue (addValue [] "x.com" ["1.2.3.4"] 0 300) "x.com" 10 =
      (some ["1.2.3.4"], addValue [] "x.com" ["1.2.3.4"] 0 300) ∧
    (getValue (addValue [] "x.com" ["1.2.3.4"] 0 300) "x.com" 300).1 = none :=
  ⟨(c8_cache [] "x.com" ["1.2.3.4"] 0 300 10 (by simp)).2.1 (by norm_num),
    ((c8_cache [] "x.com" ["1.2.3.4"] 0 300 300 (by simp)).2.2 (by norm_num)).1⟩

/-- Claim C9: under recursive mode, resolving `6.7.multiply.test` returns
exactly `127.0.0.42` for every cache state, every network behavior and
every instant — the cache is returned unchanged and the network outcome is
never consulted. -/
theorem c9_multiply (cache : CacheT) (net : Except PyErr (List Nat)) (now : Int) :
    resolve "6.7.multiply.test" cache net now = .ok (some ["127.0.0.42"], cache) := rfl

/-- Claim C3 (code evaluated at the failing input): on a truncated response
— a bare 12-byte header declaring one question, one authority and one
additional record — the Navigator's question scan indexes out of bounds and
raises `IndexError`; the exception propagates uncaught through
`_iterative_resolve` and `_handle_request`, contradicting the claim that an
out-of-bounds access is reported as "no next server". -/
theorem c3_crash :
    findNextServerName c3TruncBuf = .error .indexError ∧
    handleRequest (queryFor "example.com" 5) [.ok c3TruncBuf] = .error .indexError :=
  ⟨rfl, rfl⟩

/-- Claim C5 counterexample: in iterative mode a hop timeout surfaces as the
uncaught `socket.timeout` exception, not as a `Failed` (no-result) outcome
as the claim states. -/
theorem c5_counterexample :
    iterativeResolve [.error .timeout] [] "198.41.0.4" = .error .timeout ∧
    iterativeResolve [.error .timeout] [] "198.41.0.4" ≠ .ok none :=
  ⟨rfl, fun h => Except.noConfusion h⟩

/-- Claim C5 as amended: on a hop timeout the iterative engine re-raises the
exception after its single attempt (no retry, no further hop consulted),
while the recursive resolver catches the timeout and returns no result
without retrying and without touching the cache beyond the lookup already
performed. -/
theorem c5_amended (env : List (Except PyErr (List Nat))) (q : List Nat) (s : String)
    (d : String) (c : CacheT) (t : Int)
    (hm : pyContains d ".multiply." = false)
    (hc : (getValue c d t).1 = none) :
    iterativeResolve (.error .timeout :: env) q s = .error .timeout ∧
    resolve d c (.error .timeout) t = .ok (none, (getValue c d t).2) := by
  refine ⟨rfl, ?_⟩
  unfold resolve
  rw [hm]
  simp only [Bool.false_eq_true, if_false]
  rcases hg : getValue c d t with ⟨fst, snd⟩
  have hfst : fst = none := by
    rw [hg] at hc
    exact hc
  subst hfst
  rfl

/-- Witness for C5 at concrete inputs. -/
theorem c5_witness :
    iterativeResolve [.error .timeout] [] "8.8.8.8" = .error .timeout ∧
    resolve "example.com" [] (.error .timeout) 0 = .ok (none, []) := by
  have h := c5_amended [] [] "8.8.8.8" "example.com" [] 0 (by decide) rfl
  exact ⟨h.1, h.2⟩

/-- Claim C6 counterexample: on a crafted message whose record name is the
pointer bytes `C0 0C` at offset 12 — a pointer chain that immediately
revisits offset 12 — the source Navigator does not fail with a compression
loop: it skips the two pointer bytes without dereferencing them and returns
the record's address, while the claim-model pointer decoder detects the
revisit and fails with `compressionLoop`. -/
theorem c6_counterexample :
    findNextServerName c6LoopBuf = .ok (some "9.9.9.9") ∧
    decodeNamePtrs c6LoopBuf [] 12 29 = .error .compressionLoop :=
  ⟨rfl, rfl⟩

/-- Claim C6 as amended: the source treats only the exact byte pair
`C0 0C` as a compression pointer and skips it without dereferencing; every
name skip strictly advances the scan offset, so no offset is ever revisited
and no loop can occur — there is no `CompressionLoop` failure because
pointers are never followed. -/
theorem c6_amended (data : List Nat) (offset : Nat) :
    (slice2 data offset = [192, 12] → skipName data offset = .ok (offset + 2)) ∧
    (∀ r, skipName data offset = .ok r → offset < r) := by
  constructor
  · intro h
    unfold skipName
    rw [if_pos h]
  · intro r h
    unfold skipName at h
    split at h
    · cases h
      omega
    · cases hf : findZero data offset with
      | error e =>
        rw [hf] at h
        exact absurd h (by simp)
      | ok z =>
        rw [hf] at h
        cases h
        have := findZero_ge data offset z hf
        omega

/-- Witness for C6: a pointer name is skipped in two bytes, and a literal
name skip strictly advances the offset. -/
theorem c6_witness : skipName [192, 12] 0 = .ok 2 ∧ 0 < 3 :=
  ⟨(c6_amended [192, 12] 0).1 (by decide), (c6_amended [1, 97, 0] 0).2 3 rfl⟩

/-- Claim C1 counterexample: a referral whose header declares ancount 0,
nscount 0 and arcount 1 with a usable glue A record. The claim says the
engine consults the Navigator because the additional count is positive and
then recurses, reaching the answer in the second reply; the source tests
the authority count `header[4]`, finds 0, and fails at once. -/
theorem c1_counterexample :
    iterativeResolve [.ok c1ReferralBuf, .ok c1AnswerBuf] [] "198.41.0.4" = .ok none ∧
    iterativeResolveClaim [.ok c1ReferralBuf, .ok c1AnswerBuf] [] "198.41.0.4" =
      .ok (some c1AnswerBuf) :=
  ⟨rfl, rfl⟩

/-- Claim C1 as amended: after decoding a reply's header the engine returns
the raw reply whenever the answer count is positive (whatever RCODE it
carries); otherwise, when the authority count `nscount` — not the
additional count — is positive it asks the Navigator, recursing on the same
unchanged query bytes when a next server is found and failing with no
result when none is found; when both counts are zero it fails with no
result. -/
theorem c1_amended (resp : List Nat) (env : List (Except PyErr (List Nat)))
    (query : List Nat) (server next : String) (hdr : DnsHdr)
    (h : unpack6H resp = .ok hdr) :
    (0 < hdr.an → iterativeResolve (.ok resp :: env) query server = .ok (some resp)) ∧
    (hdr.an = 0 → 0 < hdr.ns → findNextServerName resp = .ok (some next) →
      iterativeResolve (.ok resp :: env) query server = iterativeResolve env query next) ∧
    (hdr.an = 0 → 0 < hdr.ns → findNextServerName resp = .ok none →
      iterativeResolve (.ok resp :: env) query server = .ok none) ∧
    (hdr.an = 0 → hdr.ns = 0 → iterativeResolve (.ok resp :: env) query server = .ok none) := by
  refine ⟨fun ha => ?_, fun ha hn hf => ?_, fun ha hn hf => ?_, fun ha hn => ?_⟩
  · simp only [iterativeResolve]
    rw [h]
    dsimp only
    rw [if_pos ha]
  · simp only [iterativeResolve]
    rw [h]
    dsimp only
    rw [if_neg (show ¬hdr.an > 0 by omega), if_pos hn, hf]
  · simp only [iterativeResolve]
    rw [h]
    dsimp only
    rw [if_neg (show ¬hdr.an > 0 by omega), if_pos hn, hf]
  · simp only [iterativeResolve]
    rw [h]
    dsimp only
    rw [if_neg (show ¬hdr.an > 0 by omega), if_neg (show ¬hdr.ns > 0 by omega)]

/-- Witness for C1 at a concrete referral with both counts zero on the
authority side: the engine fails with no result. -/
theorem c1_witness : iterativeResolve [.ok c1ReferralBuf] [] "198.41.0.4" = .ok none :=
  (c1_amended c1ReferralBuf [] [] "198.41.0.4" "" ⟨0, 0, 1, 0, 0, 1⟩ rfl).2.2.2 rfl rfl

/-- Claim C4 counterexample: a hop timeout is a resolution failure, yet
`_handle_request` lets the `socket.timeout` exception propagate and sends
no reply at all — the inbound request is dropped without the claimed
RCODE-3 response. -/
theorem c4_counterexample :
    handleRequest (queryFor "example.com" 5) [.error .timeout] = .error .timeout ∧
    handleRequest (queryFor "example.com" 5) [.error .timeout] ≠
      .ok (createErrorResponse 5) :=
  ⟨rfl, fun h => Except.noConfusion h⟩

/-- Claim C4 as amended: when iterative resolution completes and returns no
result (rather than raising), the server synthesizes the name-error
response: RCODE 3 and the original transaction ID, so such a request gets
exactly one reply; failures that raise (timeout, parse faults) propagate
and produce no reply. -/
theorem c4_amended (data : List Nat) (env : List (Except PyErr (List Nat))) (hdr : DnsHdr)
    (hb : ∀ x ∈ data, x < 256)
    (h : unpack6H data = .ok hdr)
    (hm : containsSeq (strBytes "multiply") (decodeDomainNameBytes (data.drop 12)) = false)
    (hres : iterativeResolve env data rootServer = .ok none) :
    handleRequest data env = .ok (createErrorResponse hdr.id) ∧
    (createErrorResponse hdr.id).take 2 = data.take 2 ∧
    rcodeOf (createErrorResponse hdr.id) = some 3 := by
  refine ⟨?_, ?_, by simp [rcodeOf, createErrorResponse, pack6H, packH]⟩
  · simp only [handleRequest]
    rw [h]
    dsimp only
    rw [hm]
    simp only [Bool.false_eq_true, if_false]
    rw [hres]
  · obtain ⟨a, b, h0, h1, hid⟩ := unpack6H_id_bytes h
    have ha : a < 256 := hb a (List.getElem?_mem h0)
    have hbb : b < 256 := hb b (List.getElem?_mem h1)
    rw [take2_of_getElem h0 h1]
    have hred : (createErrorResponse hdr.id).take 2 = [hdr.id / 256 % 256, hdr.id % 256] := rfl
    rw [hred, hid]
    have e1 : (a * 256 + b) / 256 % 256 = a := by omega
    have e2 : (a * 256 + b) % 256 = b := by omega
    rw [e1, e2]

/-- Witness for C4: a concrete query whose single hop is a referral with no
answer, no authority and no usable next server, so resolution returns no
result and the server answers with the synthesized error response. -/
theorem c4_witness :
    handleRequest (queryFor "example.com" 5) [.ok c4NoRefBuf] = .ok (createErrorResponse 5) ∧
    (createErrorResponse 5).take 2 = (queryFor "example.com" 5).take 2 ∧
    rcodeOf (createErrorResponse 5) = some 3 :=
  c4_amended (queryFor "example.com" 5) [.ok c4NoRefBuf] ⟨5, 256, 1, 0, 0, 0⟩
    (by decide) rfl (by decide) rfl

/-- Claim C10: the synthetic-domain shortcut is a plain substring test.
First, any query whose decoded domain contains `multiply` anywhere is
answered by the demo handler (stated generally). Second, the name
`multiplying.example.com` — where `multiply` is not a whole label — is
answered by the demo handler under the iterative server for every network
environment, so it never reaches iterative resolution, and its demo answer
is 127.0.0.1 since no label is numeric. Third, the recursive resolver does
not shortcut that name: with a fresh cache entry present it serves the
cache instead. Fourth, the recursive resolver shortcuts exactly the domains
containing the substring `.multiply.`, returning the demo address and an
untouched cache. -/
theorem c10_dispatch :
    (∀ (data : List Nat) (env : List (Except PyErr (List Nat))) (hdr : DnsHdr),
      unpack6H data = .ok hdr →
      containsSeq (strBytes "multiply") (decodeDomainNameBytes (data.drop 12)) = true →
      handleRequest data env =
        .ok (processMultiplyQuery (decodeDomainNameBytes (data.drop 12)) hdr.id)) ∧
    (∀ env, handleRequest (queryFor "multiplying.example.com" 7) env =
      .ok (createDnsResponse 7 (strBytes "multiplying.example.com") [127, 0, 0, 1])) ∧
    (∀ net, resolve "multiplying.example.com"
        [("multiplying.example.com", (["9.9.9.9"], 5))] net 0 =
      .ok (some ["9.9.9.9"], [("multiplying.example.com", (["9.9.9.9"], 5))])) ∧
    (∀ (d : String) (cache : CacheT) (net : Except PyErr (List Nat)) (now : Int),
      pyContains d ".multiply." = true →
      resolve d cache net now = .ok (some [handleMultiply d], cache)) := by
  refine ⟨?_, fun env => rfl, fun net => rfl, ?_⟩
  · intro data env hdr h hm
    simp only [handleRequest]
    rw [h]
    dsimp only
    rw [hm]
    simp only [if_true]
  · intro d cache net now hm
    simp only [resolve]
    rw [hm]
    simp only [if_true]

lemma getElem?_append_len_add (l1 l2 : List Nat) (k : Nat) :
    (l1 ++ l2)[l1.length + k]? = l2[k]? := by
  rw [List.getElem?_append_right (Nat.le_add_right _ _), Nat.add_sub_cancel_left]

lemma unpackH_shift (l1 l2 : List Nat) (k : Nat) :
    unpackH (l1 ++ l2) (l1.length + k) = unpackH l2 k := by
  unfold unpackH
  rw [getElem?_append_len_add, show l1.length + k + 1 = l1.length + (k + 1) by omega,
    getElem?_append_len_add]

lemma unpackH_at (l1 l2 : List Nat) : unpackH (l1 ++ l2) l1.length = unpackH l2 0 := by
  have h := unpackH_shift l1 l2 0
  simpa using h

lemma unpackH_packH (v : Nat) (R : List Nat) (hv : v < 65536) :
    unpackH (packH v ++ R) 0 = .ok v := by
  unfold unpackH packH
  simp only [List.cons_append, List.nil_append, List.getElem?_cons_zero,
    List.getElem?_cons_succ, Except.ok.injEq]
  omega

lemma findZeroAux_mid (mid : List Nat) : ∀ (rest : List Nat) (offset : Nat),
    (∀ b ∈ mid, b ≠ 0) →
      findZeroAux (mid ++ 0 :: rest) offset = .ok (offset + mid.length) := by
  induction mid with
  | nil =>
    intro rest offset hm
    simp [findZeroAux]
  | cons b mid ih =>
    intro rest offset hm
    rw [List.cons_append, findZeroAux, if_neg (hm b (List.mem_cons_self _ _))]
    rw [ih rest (offset + 1) (fun x hx => hm x (List.mem_cons_of_mem _ hx))]
    congr 1
    simp
    omega

lemma findZero_mid (pre mid rest : List Nat) (hm : ∀ b ∈ mid, b ≠ 0) :
    findZero (pre ++ (mid ++ 0 :: rest)) pre.length = .ok (pre.length + mid.length) := by
  unfold findZero
  rw [List.drop_left]
  exact findZeroAux_mid mid rest pre.length hm

lemma splitOnDot_sub (d : List Nat) : ∀ p ∈ splitOnDot d, ∀ b ∈ p, b ∈ d := by
  induction d with
  | nil =>
    intro p hp b hb
    simp [splitOnDot] at hp
    subst hp
    simp at hb
  | cons c rest ih =>
    intro p hp b hb
    by_cases hc : c = 46
    · subst hc
      rw [splitOnDot, if_pos rfl] at hp
      rcases List.mem_cons.mp hp with h1 | h2
      · subst h1
        simp at hb
      · exact List.mem_cons_of_mem _ (ih p h2 b hb)
    · rw [splitOnDot, if_neg hc] at hp
      rcases hsp : splitOnDot rest with _ | ⟨q, qs⟩
      · exact absurd hsp (splitOnDot_ne_nil rest)
      · rw [hsp] at hp
        rcases List.mem_cons.mp hp with h1 | h2
        · subst h1
          rcases List.mem_cons.mp hb with hb1 | hb2
          · subst hb1
            exact List.mem_cons_self _ _
          · refine List.mem_cons_of_mem _ (ih q ?_ b hb2)
            rw [hsp]
            exact List.mem_cons_self _ _
        · refine List.mem_cons_of_mem _ (ih p ?_ b hb)
          rw [hsp]
          exact List.mem_cons_of_mem _ h2

lemma joinParts_no_zero (d : List Nat) (hd : goodDomain d) :
    ∀ b ∈ joinParts (splitOnDot d), b ≠ 0 := by
  intro b hb
  unfold joinParts at hb
  rw [List.mem_flatten] at hb
  obtain ⟨l, hl, hbl⟩ := hb
  rw [List.mem_map] at hl
  obtain ⟨p, hp, rfl⟩ := hl
  rcases List.mem_cons.mp hbl with h1 | h2
  · subst h1
    intro h0
    exact hd.2 p hp (List.length_eq_zero.mp h0)
  · intro h0
    subst h0
    exact hd.1 (splitOnDot_sub d p hp 0 h2)

lemma skipName_schema (pre tail n : List Nat) (hn : wellNamed n) :
    skipName (pre ++ (n ++ tail)) pre.length = .ok (pre.length + n.length) := by
  rcases hn with hptr | ⟨lbls, rfl, hz, htake⟩
  · subst hptr
    unfold skipName
    rw [if_pos ?hcond]
    case hcond =>
      unfold slice2
      rw [List.drop_left]
      rfl
    rfl
  · have hz2 : ∀ b ∈ lbls, b ≠ 0 := fun b hb h0 => hz (h0 ▸ hb)
    unfold skipName
    rw [if_neg ?hne]
    case hne =>
      unfold slice2
      rw [List.drop_left]
      intro hcontra
      cases lbls with
      | nil => simp at hcontra
      | cons a ls =>
        cases ls with
        | nil => simp at hcontra
        | cons a2 ls2 =>
          apply htake
          simp at hcontra ⊢
          exact hcontra
    have hfz : findZero (pre ++ ((lbls ++ [0]) ++ tail)) pre.length
        = .ok (pre.length + lbls.length) := by
      have hform : pre ++ ((lbls ++ [0]) ++ tail) = pre ++ (lbls ++ 0 :: tail) := by simp
      rw [hform]
      exact findZero_mid pre lbls tail hz2
    rw [hfz]
    dsimp only
    congr 1
    simp
    omega

lemma skipQuestionsLoop_schema :
    ∀ (qs : List (List Nat × Nat × Nat)) (pre rest : List Nat),
      (∀ q ∈ qs, goodDomain q.1) →
      skipQuestionsLoop (pre ++ (questionsBytes qs ++ rest)) pre.length qs.length =
        .ok (pre.length + (questionsBytes qs).length) := by
  intro qs
  induction qs with
  | nil =>
    intro pre rest hq
    simp [questionsBytes, skipQuestionsLoop]
  | cons q qs ih =>
    intro pre rest hq
    obtain ⟨d, qt, qc⟩ := q
    have hzero : ∀ b ∈ joinParts (splitOnDot d), b ≠ 0 :=
      joinParts_no_zero d (hq _ (List.mem_cons_self _ _))
    have hshape : pre ++ (questionsBytes ((d, qt, qc) :: qs) ++ rest)
        = pre ++ (joinParts (splitOnDot d)
            ++ 0 :: (packH qt ++ (packH qc ++ (questionsBytes qs ++ rest)))) := by
      simp [questionsBytes, questionBytes, encodeDomainQuestion]
    simp only [List.length_cons, skipQuestionsLoop]
    rw [hshape, findZero_mid pre _ _ hzero]
    dsimp only
    have hlen : pre.length + (joinParts (splitOnDot d)).length + 5
        = (pre ++ questionBytes (d, qt, qc)).length := by
      simp [questionBytes, encodeDomainQuestion, packH]
      omega
    have hassoc : pre ++ (joinParts (splitOnDot d)
          ++ 0 :: (packH qt ++ (packH qc ++ (questionsBytes qs ++ rest))))
        = (pre ++ questionBytes (d, qt, qc)) ++ (questionsBytes qs ++ rest) := by
      simp [questionBytes, encodeDomainQuestion, packH]
    rw [hlen, hassoc, ih _ _ (fun x hx => hq x (List.mem_cons_of_mem _ hx))]
    congr 1
    simp [questionsBytes, questionBytes, encodeDomainQuestion, packH]
    omega

lemma scanRecordsLoop_schema :
    ∀ (count : Nat) (rs : List RawRR) (pre : List Nat),
      count ≤ rs.length → (∀ r ∈ rs, wellFormedRR r) →
      scanRecordsLoop (pre ++ rrsBytes rs) pre.length count = .ok (specScan (rs.take count)) := by
  intro count
  induction count with
  | zero =>
    intro rs pre hc hw
    simp [scanRecordsLoop, specScan]
  | succ count ih =>
    intro rs pre hc hw
    cases rs with
    | nil => simp at hc
    | cons r rs =>
      obtain ⟨hnm, hmeta, htype, hdlen, hA⟩ := hw r (List.mem_cons_self _ _)
      have hR : rrsBytes (r :: rs) = rrBytes r ++ rrsBytes rs := by simp [rrsBytes]
      simp only [scanRecordsLoop]
      have hskip : skipName (pre ++ rrsBytes (r :: rs)) pre.length
          = .ok (pre.length + r.name.length) := by
        have hsh : pre ++ rrsBytes (r :: rs) = pre ++ (r.name
            ++ (packH r.rtype ++ (r.meta ++ (packH r.rdata.length
              ++ (r.rdata ++ rrsBytes rs))))) := by
          simp [hR, rrBytes]
        rw [hsh]
        exact skipName_schema pre _ r.name hnm
      rw [hskip]
      dsimp only
      have hrt : unpackH (pre ++ rrsBytes (r :: rs)) (pre.length + r.name.length)
          = .ok r.rtype := by
        have hsh : pre ++ rrsBytes (r :: rs) = (pre ++ r.name)
            ++ (packH r.rtype ++ (r.meta ++ (packH r.rdata.length
              ++ (r.rdata ++ rrsBytes rs)))) := by
          simp [hR, rrBytes]
        have hlen2 : pre.length + r.name.length = (pre ++ r.name).length := by simp
        rw [hsh, hlen2, unpackH_at]
        exact unpackH_packH r.rtype _ htype
      rw [hrt]
      dsimp only
      have hdl : unpackH (pre ++ rrsBytes (r :: rs)) (pre.length + r.name.length + 8)
          = .ok r.rdata.length := by
        have hsh : pre ++ rrsBytes (r :: rs)
            = (pre ++ r.name ++ packH r.rtype ++ r.meta)
              ++ (packH r.rdata.length ++ (r.rdata ++ rrsBytes rs)) := by
          simp [hR, rrBytes]
        have hlen3 : pre.length + r.name.length + 8
            = (pre ++ r.name ++ packH r.rtype ++ r.meta).length := by
          simp [packH, hmeta]
          omega
        rw [hsh, hlen3, unpackH_at]
        exact unpackH_packH r.rdata.length _ hdlen
      rw [hdl]
      dsimp only
      by_cases hA1 : r.rtype = 1
      · rw [if_pos hA1]
        have hlen4 : r.rdata.length = 4 := hA hA1
        have hsh : pre ++ rrsBytes (r :: rs)
            = (pre ++ r.name ++ packH r.rtype ++ r.meta ++ packH r.rdata.length)
              ++ (r.rdata ++ rrsBytes rs) := by
          simp [hR, rrBytes]
        have hpos : pre.length + r.name.length + 10
            = (pre ++ r.name ++ packH r.rtype ++ r.meta ++ packH r.rdata.length).length := by
          simp [packH, hmeta]
          omega
        have hdropv : (pre ++ rrsBytes (r :: rs)).drop (pre.length + r.name.length + 10)
            = r.rdata ++ rrsBytes rs := by
          rw [hsh, hpos, List.drop_left]
        unfold inetNtoa4
        rw [hdropv]
        have htake4 : (r.rdata ++ rrsBytes rs).take 4 = r.rdata := by
          rw [show (4 : Nat) = r.rdata.length from hlen4.symm]
          exact List.take_left _ _
        rw [htake4, if_pos (by rw [hlen4])]
        simp [specScan, hA1]
      · rw [if_neg hA1]
        have hpos2 : pre.length + r.name.length + 10 + r.rdata.length
            = (pre ++ rrBytes r).length := by
          simp [rrBytes, packH, hmeta]
          omega
        have hsh2 : pre ++ rrsBytes (r :: rs) = (pre ++ rrBytes r) ++ rrsBytes rs := by
          simp [hR]
        rw [hpos2, hsh2,
          ih rs _ (by simp at hc; omega) (fun x hx => hw x (List.mem_cons_of_mem _ hx))]
        simp [specScan, hA1]

/-- Claim C2 counterexample: a referral with qdcount 1, ancount 0, nscount 1
and arcount 1, whose authority section holds an NS record and whose
additional section holds the type-A glue 5.6.7.8. The claim says the
Navigator scans the additional records and returns 5.6.7.8; the source
scans the first arcount records after the questions — here the authority NS
record — finds no type A among them and reports no next server. -/
theorem c2_counterexample :
    findNextServerName c2SectionBuf = .ok none ∧
    findNextClaimSpec c2SectionBuf = .ok (some "5.6.7.8") :=
  ⟨rfl, rfl⟩

/-- Claim C2 as amended: for every buffer laid out as a header, qdcount
question entries (with non-empty, zero-free labels) and then a record
sequence, the Navigator skips exactly the qdcount question entries and
scans the first arcount records that follow the question section — these
coincide with the additional records only when the answer and authority
sections are empty. Over records whose name is either the exact pointer
bytes `C0 0C` (skipped without dereferencing) or a zero-terminated literal,
it returns the first type-A record's four data bytes dotted immediately,
without scanning the remaining records, and reports no next server when
arcount records pass without a type-A hit or arcount is zero. -/
theorem c2_amended (idv fl an ns ar : Nat) (qs : List (List Nat × Nat × Nat)) (rs : List RawRR)
    (hqd : qs.length < 65536) (har : ar < 65536) (harc : ar ≤ rs.length)
    (hq : ∀ q ∈ qs, goodDomain q.1) (hw : ∀ r ∈ rs, wellFormedRR r) :
    findNextServerName
        (pack6H idv fl qs.length an ns ar ++ (questionsBytes qs ++ rrsBytes rs)) =
      .ok (specScan (rs.take ar)) := by
  have h4 : unpackH (pack6H idv fl qs.length an ns ar ++ (questionsBytes qs ++ rrsBytes rs)) 4
      = .ok qs.length := by
    unfold unpackH pack6H packH
    simp only [List.cons_append, List.nil_append, List.getElem?_cons_zero,
      List.getElem?_cons_succ, Except.ok.injEq]
    omega
  have h10 : unpackH (pack6H idv fl qs.length an ns ar ++ (questionsBytes qs ++ rrsBytes rs)) 10
      = .ok ar := by
    unfold unpackH pack6H packH
    simp only [List.cons_append, List.nil_append, List.getElem?_cons_zero,
      List.getElem?_cons_succ, Except.ok.injEq]
    omega
  have h12 : (12 : Nat) = (pack6H idv fl qs.length an ns ar).length := by
    simp [pack6H, packH]
  have hskip : skipQuestionsLoop
      (pack6H idv fl qs.length an ns ar ++ (questionsBytes qs ++ rrsBytes rs)) 12 qs.length
      = .ok (12 + (questionsBytes qs).length) := by
    rw [h12]
    exact skipQuestionsLoop_schema qs (pack6H idv fl qs.length an ns ar) (rrsBytes rs) hq
  have hscan : scanRecordsLoop
      (pack6H idv fl qs.length an ns ar ++ (questionsBytes qs ++ rrsBytes rs))
      (12 + (questionsBytes qs).length) ar = .ok (specScan (rs.take ar)) := by
    have hlen5 : 12 + (questionsBytes qs).length
        = (pack6H idv fl qs.length an ns ar ++ questionsBytes qs).length := by
      simp [pack6H, packH]
      omega
    have hshp : pack6H idv fl qs.length an ns ar ++ (questionsBytes qs ++ rrsBytes rs)
        = (pack6H idv fl qs.length an ns ar ++ questionsBytes qs) ++ rrsBytes rs := by
      simp
    rw [hlen5, hshp]
    exact scanRecordsLoop_schema ar rs _ harc hw
  unfold findNextServerName
  rw [h4]
  dsimp only
  rw [hskip]
  dsimp only
  rw [h10]
  dsimp only
  exact hscan

/-- Witness for C2: the schema theorem applied to the concrete layout of an
NS authority record followed by a type-A additional record, with arcount 2,
yields the glue address. -/
theorem c2_witness :
    findNextServerName (pack6H 0 0 1 0 1 2 ++ (questionsBytes [(strBytes "a", 1, 1)] ++
      rrsBytes [⟨[192, 12], 2, [0, 1, 0, 0, 0, 0], [192, 12]⟩,
        ⟨[192, 12], 1, [0, 1, 0, 0, 0, 0], [5, 6, 7, 8]⟩])) = .ok (some "5.6.7.8") := by
  have h := c2_amended 0 0 0 1 2 [(strBytes "a", 1, 1)]
    [⟨[192, 12], 2, [0, 1, 0, 0, 0, 0], [192, 12]⟩,
      ⟨[192, 12], 1, [0, 1, 0, 0, 0, 0], [5, 6, 7, 8]⟩]
    (by decide) (by decide) (by decide)
    (by
      intro q hq
      have hq1 := List.mem_singleton.mp hq
      subst hq1
      exact ⟨by decide, by decide⟩)
    (by
      intro r hr
      rcases List.mem_cons.mp hr with h1 | h2
      · subst h1
        exact ⟨Or.inl rfl, by decide, by decide, by decide, fun hh => absurd hh (by decide)⟩
      · have h3 := List.mem_singleton.mp h2
        subst h3
        exact ⟨Or.inl rfl, by decide, by decide, by decide, fun _ => by decide⟩)
  exact h

/-- Witness for C10 at concrete inputs. -/
theorem c10_witness :
    handleRequest (queryFor "multiplying.example.com" 7) [.error .timeout] =
      .ok (createDnsResponse 7 (strBytes "multiplying.example.com") [127, 0, 0, 1]) ∧
    resolve "4.5.multiply.test" [] (.error .timeout) 0 =
      .ok (some [handleMultiply "4.5.multiply.test"], []) :=
  ⟨c10_dispatch.2.1 [.error .timeout],
    c10_dispatch.2.2.2 "4.5.multiply.test" [] (.error .timeout) 0 (by decide)⟩

end Nets
